import Mathlib

/-!
Shallow embedding of the string value engine of `t_string.c`: the tagged
int/raw value representation with reference counts, the copy-on-write
mutation guard, the SETRANGE / APPEND / GETRANGE range operators with the
512 MiB size guard, the INCR/DECR integer arithmetic with its overflow
check, and the INCRBYFLOAT propagation rewrite.  Buffers live in an explicit
heap (id → bytes) so that in-place mutation versus fresh allocation is
observable.
-/

namespace TString

/-- A byte string (the contents of an sds buffer): list of byte values. -/
abbrev Bytes := List Nat

/-- Object encoding with payload: `REDIS_ENCODING_INT` stores the numeric
value directly, `REDIS_ENCODING_RAW` stores a buffer id into the heap. -/
inductive Enc where
  | int (v : Int)
  | raw (bid : Nat)
  deriving DecidableEq, Repr

/-- `robj`: encoding plus reference count. -/
structure RObj where
  enc : Enc
  refcount : Nat
  deriving DecidableEq, Repr

/-- Whether the encoding is `REDIS_ENCODING_RAW`. -/
def Enc.isRaw : Enc → Bool
  | .raw _ => true
  | .int _ => false

/-- The sds buffer heap: buffer contents by id, plus the next fresh id. -/
structure Heap where
  bufs : Nat → Bytes
  next : Nat

/-- Allocate a fresh buffer holding `b`: returns the heap and the new id. -/
def Heap.alloc (h : Heap) (b : Bytes) : Heap × Nat :=
  (⟨fun i => if i = h.next then b else h.bufs i, h.next + 1⟩, h.next)

/-- Mutate buffer `bid` in place to contents `b`. -/
def Heap.store (h : Heap) (bid : Nat) (b : Bytes) : Heap :=
  ⟨fun i => if i = bid then b else h.bufs i, h.next⟩

/-- The empty heap. -/
def emptyHeap : Heap := ⟨fun _ => [], 0⟩

/-- Digit emitter for `ll2string`, with fuel so that it is structural and
computes by `decide`/`rfl` (fuel `n + 1` always suffices for input `n`). -/
def natToDigitsAux : Nat → Nat → Bytes
  | 0, _ => []
  | fuel + 1, n =>
    if n < 10 then [48 + n] else natToDigitsAux fuel (n / 10) ++ [48 + n % 10]

/-- ASCII decimal digits of a natural number. -/
def natToDigits (n : Nat) : Bytes := natToDigitsAux (n + 1) n

/-- Modelled from the spec: `ll2string` (util.c, not under src/) — the
canonical decimal text of a signed integer (§4.1, decode of Integer form). -/
def ll2string (v : Int) : Bytes :=
  if v < 0 then 45 :: natToDigits v.natAbs else natToDigits v.natAbs

/-- Modelled from the spec: `getDecodedObject` (object.c, not under src/) —
the canonical bytes of a value regardless of representation (§4.1
decode_as_text). -/
def objBytes (h : Heap) (o : RObj) : Bytes :=
  match o.enc with
  | .int v => ll2string v
  | .raw bid => h.bufs bid

/-- Modelled from the spec: `stringObjectLen` (object.c, not under src/) —
§4.1 logical_length. -/
def stringObjectLen (h : Heap) (o : RObj) : Nat := (objBytes h o).length

/-- Numeric value of a digit string (most significant first). -/
def digitsToNat (b : Bytes) : Nat := b.foldl (fun a c => a * 10 + (c - 48)) 0

def MIN_I64 : Int := -(2 ^ 63)

def MAX_I64 : Int := 2 ^ 63 - 1

/-- Modelled from the spec: `string2ll` (util.c, not under src/), which is
also the acceptance test of §4.1 try_encode_compact — succeeds exactly on the
canonical decimal text of an in-range signed 64-bit integer.  Such a text has
at most 20 bytes, so longer inputs are rejected outright. -/
def parseCanonicalI64 (b : Bytes) : Option Int :=
  if b.length ≤ 20 then
    let v : Int :=
      match b with
      | c :: _ => if c = 45 then -(digitsToNat b.tail : Int) else (digitsToNat b : Int)
      | [] => 0
    if MIN_I64 ≤ v ∧ v ≤ MAX_I64 ∧ ll2string v = b then some v else none
  else none

/-- `checkStringLength` (t_string.c:40-46): `true` means the size is within
the 512 MiB cap (the source replies an error and returns `REDIS_ERR` when
`size > 512*1024*1024`). -/
def checkStringLength (size : Int) : Bool := size ≤ 512 * 1024 * 1024

/-- `sdsgrowzero` (sds.c): grow the buffer to length `n`, zero-filling the new
tail; no-op when the buffer is already at least that long. -/
def sdsgrowzero (b : Bytes) (n : Nat) : Bytes :=
  if n ≤ b.length then b else b ++ List.replicate (n - b.length) 0

/-- `memcpy(buf + off, v, len v)` on an sds buffer (the call sites guarantee
`off + len v ≤ len buf` via `sdsgrowzero`). -/
def sdsWriteAt (b : Bytes) (off : Nat) (v : Bytes) : Bytes :=
  b.take off ++ (v ++ b.drop (off + v.length))

/-- Error replies produced by the embedded commands. -/
inductive Err where
  | invalidOffset
  | tooLarge
  | overflow
  | notAnInteger
  | notAFloat
  | floatOverflow
  deriving DecidableEq, Repr

/-- Result of a string command: final heap, final binding of the key, whether
`signalModifiedKey` fired, and the reply. -/
structure CmdOut where
  heap : Heap
  binding : Option RObj
  modified : Bool
  reply : Except Err Int

/-- The copy-on-write guard block shared by `setrangeCommand`
(t_string.c:255-260) and `appendCommand` (t_string.c:541-546): if the object
is shared (`refcount != 1`) or not raw-encoded, build a fresh raw copy of its
decoded bytes (which the caller installs via `dbOverwrite`); otherwise the
object's own buffer may be mutated in place.  Returns the heap, the buffer id
to mutate, and the resulting binding object. -/
def ensureRawExclusive (h : Heap) (o : RObj) : Heap × Nat × RObj :=
  match o.enc with
  | .raw bid =>
    if o.refcount = 1 then (h, bid, o)
    else
      let p := h.alloc (h.bufs bid)
      (p.1, p.2, ⟨.raw p.2, 1⟩)
  | .int v =>
    let p := h.alloc (ll2string v)
    (p.1, p.2, ⟨.raw p.2, 1⟩)

/-- `setrangeCommand` (t_string.c:204-277), over an optional existing value
(the key's binding after `lookupKeyWrite`). -/
def setrangeCommand (h : Heap) (existing : Option RObj) (offset : Int)
    (value : Bytes) : CmdOut :=
  if offset < 0 then ⟨h, existing, false, .error .invalidOffset⟩
  else
    match existing with
    | none =>
      if value.length = 0 then ⟨h, none, false, .ok 0⟩
      else if ¬ checkStringLength (offset + value.length) then
        ⟨h, none, false, .error .tooLarge⟩
      else
        let p := h.alloc []
        let buf := sdsWriteAt (sdsgrowzero (p.1.bufs p.2) (offset.toNat + value.length))
          offset.toNat value
        ⟨p.1.store p.2 buf, some ⟨.raw p.2, 1⟩, true, .ok buf.length⟩
    | some o =>
      if value.length = 0 then ⟨h, some o, false, .ok (stringObjectLen h o)⟩
      else if ¬ checkStringLength (offset + value.length) then
        ⟨h, some o, false, .error .tooLarge⟩
      else
        let g := ensureRawExclusive h o
        let buf := sdsWriteAt (sdsgrowzero (g.1.bufs g.2.1) (offset.toNat + value.length))
          offset.toNat value
        ⟨g.1.store g.2.1 buf, some g.2.2, true, .ok buf.length⟩

/-- Modelled from the spec: `tryObjectEncoding` (object.c, not under src/) /
§4.1 try_encode_compact — Integer form exactly when the bytes are the
canonical decimal text of an in-range 64-bit value, otherwise a fresh raw
buffer holding the bytes. -/
def tryObjectEncodingH (h : Heap) (b : Bytes) : Heap × RObj :=
  match parseCanonicalI64 b with
  | some v => (h, ⟨.int v, 1⟩)
  | none =>
    let p := h.alloc b
    (p.1, ⟨.raw p.2, 1⟩)

/-- `appendCommand` (t_string.c:517-555).  Note the missing-key path installs
the (compact-encoded) argument directly with no length check. -/
def appendCommand (h : Heap) (existing : Option RObj) (value : Bytes) : CmdOut :=
  match existing with
  | none =>
    let p := tryObjectEncodingH h value
    ⟨p.1, some p.2, true, .ok (stringObjectLen p.1 p.2)⟩
  | some o =>
    if ¬ checkStringLength (stringObjectLen h o + value.length) then
      ⟨h, some o, false, .error .tooLarge⟩
    else
      let g := ensureRawExclusive h o
      let buf := g.1.bufs g.2.1 ++ value
      ⟨g.1.store g.2.1 buf, some g.2.2, true, .ok buf.length⟩

/-- The index arithmetic of `getrangeCommand` (t_string.c:309-322), applied
to the decoded bytes of the value, including the `(unsigned)` cast of
t_string.c:314, which truncates the 64-bit `end` to its low 32 bits in the
clamp test only (the clamped-to value and the later uses of `end` are not
cast).  Returns `none` for the empty-bulk reply, otherwise the pair
(start, count) handed to `addReplyBulkCBuffer(str + start, count)`; that
reply reads `count` bytes from `str + start`, which runs out of bounds
whenever `start + count` exceeds the buffer length — the comment at
t_string.c:316-317 asserts the precondition `end < strlen`, which a skipped
clamp violates. -/
def getrangeRequest (s : Bytes) (start en : Int) : Option (Nat × Nat) :=
  let strlen : Int := s.length
  let start := if start < 0 then strlen + start else start
  let en := if en < 0 then strlen + en else en
  let start := if start < 0 then 0 else start
  let en := if en < 0 then 0 else en
  let en := if en % 4294967296 ≥ strlen then strlen - 1 else en
  if start > en then none
  else some (start.toNat, (en - start + 1).toNat)

/-- `getrangeCommand` (t_string.c:282-323): the reply request (missing key
replies the empty bulk, modelled as `none`). -/
def getrangeCommand (h : Heap) (existing : Option RObj) (start en : Int) :
    Option (Nat × Nat) :=
  match existing with
  | none => none
  | some o => getrangeRequest (objBytes h o) start en

/-- Modelled from the spec: `getLongLongFromObject` (object.c, not under
src/) — a missing key reads as 0, an Integer-form value reads directly, and
raw bytes must be canonical 64-bit decimal text. -/
def getLongLongFromObject (h : Heap) (existing : Option RObj) : Option Int :=
  match existing with
  | none => some 0
  | some o =>
    match o.enc with
    | .int v => some v
    | .raw bid => parseCanonicalI64 (h.bufs bid)

/-- `incrDecrCommand` (t_string.c:394-434).  On success the new value is a
fresh compact-encoded object (`createStringObjectFromLongLong`), installed by
overwrite/add; the old buffer is never touched. -/
def incrDecrCommand (h : Heap) (existing : Option RObj) (incr : Int) : CmdOut :=
  match getLongLongFromObject h existing with
  | none => ⟨h, existing, false, .error .notAnInteger⟩
  | some value =>
    if (incr < 0 ∧ value < 0 ∧ incr < MIN_I64 - value) ∨
        (incr > 0 ∧ value > 0 ∧ incr > MAX_I64 - value) then
      ⟨h, existing, false, .error .overflow⟩
    else
      ⟨h, some ⟨.int (value + incr), 1⟩, true, .ok (value + incr)⟩

/-- Result of INCRBYFLOAT: final heap, binding, modification signal, reply
bytes, and the argument vector that gets propagated to the replication /
durability stream after `rewriteClientCommandArgument`. -/
structure FloatOut where
  heap : Heap
  binding : Option RObj
  modified : Bool
  reply : Except Err Bytes
  argv : List Bytes

/-- The bytes of "SET". -/
def setVerb : Bytes := [83, 69, 84]

/-- The bytes of "INCRBYFLOAT". -/
def incrbyfloatVerb : Bytes := [73, 78, 67, 82, 66, 89, 70, 76, 79, 65, 84]

/-- Modelled from the spec: `getLongDoubleFromObject` (object.c, not under
src/) over the abstract long-double type — a missing key reads as 0,
otherwise the decoded bytes are parsed. -/
def getLongDoubleFromObject {LD : Type} (ldParse : Bytes → Option LD)
    (ldZero : LD) (h : Heap) (existing : Option RObj) : Option LD :=
  match existing with
  | none => some ldZero
  | some o => ldParse (objBytes h o)

/-- `incrbyfloatCommand` (t_string.c:473-512).  The long-double arithmetic
(parsing, addition, `isnan`/`isinf`, and `createStringObjectFromLongDouble`
formatting) is floating point and not shallowly embeddable, so those
operations are abstracted into parameters; the control flow, the state
update, and the SET rewrite of the propagated command (t_string.c:505-511,
`rewriteClientCommandArgument` on argv 0 and 2) are embedded exactly. -/
def incrbyfloatCommand {LD : Type} (ldAdd : LD → LD → LD) (ldIsBad : LD → Bool)
    (ldFmt : LD → Bytes) (ldParse : Bytes → Option LD) (ldZero : LD)
    (h : Heap) (key : Bytes) (existing : Option RObj) (incrArg : Bytes) :
    FloatOut :=
  match getLongDoubleFromObject ldParse ldZero h existing, ldParse incrArg with
  | some value, some incr =>
    if ldIsBad (ldAdd value incr) then
      ⟨h, existing, false, .error .floatOverflow, [incrbyfloatVerb, key, incrArg]⟩
    else
      ⟨(h.alloc (ldFmt (ldAdd value incr))).1,
        some ⟨.raw (h.alloc (ldFmt (ldAdd value incr))).2, 1⟩, true,
        .ok (ldFmt (ldAdd value incr)),
        ([incrbyfloatVerb, key, incrArg].set 0 setVerb).set 2
          (ldFmt (ldAdd value incr))⟩
  | _, _ => ⟨h, existing, false, .error .notAFloat, [incrbyfloatVerb, key, incrArg]⟩

/-- The decoded bytes of an optional existing value (empty for a missing
key). -/
def existingBytes (h : Heap) (existing : Option RObj) : Bytes :=
  match existing with
  | none => []
  | some o => objBytes h o

/-- Modelled from the spec: the §4.4 `write_at` contract, written from the
spec's words over plain byte strings; refinement target for APPEND. -/
def write_at_spec (existing : Option Bytes) (offset : Nat) (data : Bytes) :
    Except Err (Nat × Option Bytes) :=
  if data = [] then .ok ((existing.getD []).length, existing)
  else if ¬ ((offset : Int) + data.length ≤ 512 * 1024 * 1024) then
    .error .tooLarge
  else
    let old := existing.getD []
    let buf := sdsWriteAt (sdsgrowzero old (offset + data.length)) offset data
    .ok (buf.length, some buf)

/-- Modelled from the spec: the §4.4 `read_range` index normalization, written
from the spec's words; comparison target for `getrangeRequest`. -/
def read_range_spec (s : Bytes) (start en : Int) : Bytes :=
  let n : Int := s.length
  let start' := if start < 0 then max 0 (n + start) else start
  let e0 := if en < 0 then max 0 (n + en) else en
  let e' := if e0 ≥ n then n - 1 else e0
  if n = 0 ∨ start' > e' then []
  else (s.drop start'.toNat).take (e' - start' + 1).toNat

/-- Post-state of the copy-on-write mutation guard for a destructive edit
whose effect on the exclusively owned buffer is `editOf`: an exclusively
owned raw value is edited in place with no allocation; a shared or
int-encoded value is left untouched and a fresh, distinct, exclusively owned
raw copy (of the canonical bytes, then edited) is installed instead. -/
def mutGuardPost (h : Heap) (o : RObj) (editOf : Bytes → Bytes)
    (out : CmdOut) : Prop :=
  (∀ bid, o.enc = .raw bid → o.refcount = 1 →
    out.binding = some o ∧
    out.heap.next = h.next ∧
    out.heap.bufs bid = editOf (h.bufs bid) ∧
    (∀ b, b ≠ bid → out.heap.bufs b = h.bufs b)) ∧
  (¬ (o.refcount = 1 ∧ o.enc.isRaw = true) →
    out.binding = some ⟨.raw h.next, 1⟩ ∧
    out.heap.bufs h.next = editOf (objBytes h o) ∧
    (∀ b, b ≠ h.next → out.heap.bufs b = h.bufs b) ∧
    objBytes out.heap o = objBytes h o ∧
    (∀ bid, o.enc = .raw bid → bid ≠ h.next))

/-- Conclusion of claim C1: guard post-state for SETRANGE's overwrite and
APPEND's concatenation on an existing value. -/
def C1Concl (h : Heap) (o : RObj) (off : Nat) (data : Bytes) : Prop :=
  mutGuardPost h o
    (fun b => sdsWriteAt (sdsgrowzero b (off + data.length)) off data)
    (setrangeCommand h (some o) (off : Int) data) ∧
  mutGuardPost h o (fun b => b ++ data) (appendCommand h (some o) data)

/-- Conclusion of claim C3: the overflow guard of INCR/DECR fires exactly on
the stated condition, and otherwise `current + delta` is stored in a fresh
compact-encoded object with the heap untouched. -/
def C3Concl (h : Heap) (existing : Option RObj) (delta current : Int) : Prop :=
  (incrDecrCommand h existing delta = ⟨h, existing, false, .error .overflow⟩ ↔
    ((delta < 0 ∧ current < 0 ∧ delta < MIN_I64 - current) ∨
      (delta > 0 ∧ current > 0 ∧ delta > MAX_I64 - current))) ∧
  (¬ ((delta < 0 ∧ current < 0 ∧ delta < MIN_I64 - current) ∨
      (delta > 0 ∧ current > 0 ∧ delta > MAX_I64 - current)) →
    incrDecrCommand h existing delta =
      ⟨h, some ⟨.int (current + delta), 1⟩, true, .ok (current + delta)⟩)

/-- Conclusion of claim C5: SETRANGE with non-negative offset and non-empty
in-ceiling data grows the buffer to `max old (off + len)`, zero-fills the
gap, copies the data at the offset, preserves the other bytes, and reports
the final length. -/
def C5Concl (h : Heap) (existing : Option RObj) (off : Nat) (data : Bytes) :
    Prop :=
  ∃ o' bid,
    (setrangeCommand h existing (off : Int) data).binding = some o' ∧
    o'.enc = .raw bid ∧
    (((setrangeCommand h existing (off : Int) data).heap.bufs bid).length =
      max (existingBytes h existing).length (off + data.length)) ∧
    ((setrangeCommand h existing (off : Int) data).reply =
      .ok (((setrangeCommand h existing (off : Int) data).heap.bufs bid).length)) ∧
    (∀ i, i < data.length →
      ((setrangeCommand h existing (off : Int) data).heap.bufs bid).getD (off + i) 0 =
        data.getD i 0) ∧
    (∀ i, (existingBytes h existing).length ≤ i → i < off →
      ((setrangeCommand h existing (off : Int) data).heap.bufs bid).getD i 0 = 0) ∧
    (∀ i, i < (existingBytes h existing).length → i < off →
      ((setrangeCommand h existing (off : Int) data).heap.bufs bid).getD i 0 =
        (existingBytes h existing).getD i 0) ∧
    (∀ i, off + data.length ≤ i → i < (existingBytes h existing).length →
      ((setrangeCommand h existing (off : Int) data).heap.bufs bid).getD i 0 =
        (existingBytes h existing).getD i 0)

/-- The concrete scenario of claim C5: SETRANGE on a missing key at offset 5
with data "Hi" yields length 7 and five NUL bytes followed by "Hi". -/
def setrangeHiExample : Prop :=
  (setrangeCommand emptyHeap none 5 [72, 105]).reply = .ok 7 ∧
  ∃ o' bid,
    (setrangeCommand emptyHeap none 5 [72, 105]).binding = some o' ∧
    o'.enc = .raw bid ∧
    (setrangeCommand emptyHeap none 5 [72, 105]).heap.bufs bid =
      [0, 0, 0, 0, 0, 72, 105]

/-- Conclusion of claim C6: a successful INCRBYFLOAT propagates a SET of the
key to the exact stored literal (never an INCRBYFLOAT of the delta). -/
def C6Concl {LD : Type} (ldAdd : LD → LD → LD) (ldIsBad : LD → Bool)
    (ldFmt : LD → Bytes) (ldParse : Bytes → Option LD) (ldZero : LD)
    (h : Heap) (key : Bytes) (existing : Option RObj) (incrArg : Bytes)
    (r : Bytes) : Prop :=
  (incrbyfloatCommand ldAdd ldIsBad ldFmt ldParse ldZero h key existing
      incrArg).argv = [setVerb, key, r] ∧
  (∃ o',
    (incrbyfloatCommand ldAdd ldIsBad ldFmt ldParse ldZero h key existing
        incrArg).binding = some o' ∧
    objBytes
      (incrbyfloatCommand ldAdd ldIsBad ldFmt ldParse ldZero h key existing
        incrArg).heap o' = r) ∧
  (incrbyfloatCommand ldAdd ldIsBad ldFmt ldParse ldZero h key existing
      incrArg).argv.head? ≠ some incrbyfloatVerb

/-- Conclusion of claim C9: APPEND ends with the old bytes followed by the
data, reports `old length + data length`, and agrees with the spec's
`write_at` at offset = current length (a missing key extends from empty). -/
def C9Concl (h : Heap) (existing : Option RObj) (data : Bytes) : Prop :=
  ∃ o',
    (appendCommand h existing data).binding = some o' ∧
    objBytes (appendCommand h existing data).heap o' =
      existingBytes h existing ++ data ∧
    (appendCommand h existing data).reply =
      .ok ((existingBytes h existing).length + data.length) ∧
    write_at_spec (some (existingBytes h existing))
        (existingBytes h existing).length data =
      .ok ((existingBytes h existing).length + data.length,
        some (existingBytes h existing ++ data))

/-- Fixture: heap with one two-byte buffer "AB" at id 0. -/
def heapAB : Heap := ⟨fun i => if i = 0 then [65, 66] else [], 1⟩

/-- Fixture: shared (refcount 2) raw object over buffer 0. -/
def objShared : RObj := ⟨.raw 0, 2⟩

/-- Fixture: exclusively owned raw object over buffer 0. -/
def objOwned : RObj := ⟨.raw 0, 1⟩

/-- Fixture: integer-encoded object holding 7. -/
def objInt7 : RObj := ⟨.int 7, 1⟩

/-! ### Helper lemmas -/

theorem length_sdsgrowzero (b : Bytes) (n : Nat) :
    (sdsgrowzero b n).length = max b.length n := by
  unfold sdsgrowzero
  split
  · omega
  · simp only [List.length_append, List.length_replicate]
    omega

theorem getD_replicate_zero (m k : Nat) :
    (List.replicate m (0 : Nat)).getD k 0 = 0 := by
  induction m generalizing k with
  | zero => rfl
  | succ m ih =>
    cases k with
    | zero => rfl
    | succ k => simp [List.replicate_succ]

theorem getD_sdsgrowzero_lt (b : Bytes) (n i : Nat) (h : i < b.length) :
    (sdsgrowzero b n).getD i 0 = b.getD i 0 := by
  unfold sdsgrowzero
  split
  · rfl
  · exact List.getD_append _ _ _ _ h

theorem getD_sdsgrowzero_ge (b : Bytes) (n i : Nat) (h : b.length ≤ i) :
    (sdsgrowzero b n).getD i 0 = 0 := by
  unfold sdsgrowzero
  split
  · exact List.getD_eq_default _ _ h
  · rw [List.getD_append_right _ _ _ _ h]
    exact getD_replicate_zero _ _

theorem length_sdsWriteAt (b : Bytes) (off : Nat) (v : Bytes)
    (h : off + v.length ≤ b.length) :
    (sdsWriteAt b off v).length = b.length := by
  simp only [sdsWriteAt, List.length_append, List.length_take, List.length_drop]
  omega

theorem getD_sdsWriteAt_data (b : Bytes) (off : Nat) (v : Bytes) (i : Nat)
    (hle : off + v.length ≤ b.length) (hi : i < v.length) :
    (sdsWriteAt b off v).getD (off + i) 0 = v.getD i 0 := by
  unfold sdsWriteAt
  have htake : (b.take off).length = off := by
    simp only [List.length_take]; omega
  have h1 : (b.take off).length ≤ off + i := by omega
  rw [List.getD_append_right _ _ _ _ h1, htake]
  have h2 : off + i - off = i := by omega
  rw [h2]
  exact List.getD_append _ _ _ _ hi

theorem getD_sdsWriteAt_lt (b : Bytes) (off : Nat) (v : Bytes) (i : Nat)
    (hle : off + v.length ≤ b.length) (hi : i < off) :
    (sdsWriteAt b off v).getD i 0 = b.getD i 0 := by
  unfold sdsWriteAt
  have h1 : i < (b.take off).length := by
    simp only [List.length_take]; omega
  rw [List.getD_append _ _ _ _ h1]
  rw [List.getD_eq_getElem _ _ h1, List.getD_eq_getElem _ _ (by omega : i < b.length)]
  simp [List.getElem_take]

theorem getD_sdsWriteAt_ge (b : Bytes) (off : Nat) (v : Bytes) (i : Nat)
    (hle : off + v.length ≤ b.length) (hi : off + v.length ≤ i) :
    (sdsWriteAt b off v).getD i 0 = b.getD i 0 := by
  by_cases hlen : i < b.length
  · unfold sdsWriteAt
    have htake : (b.take off).length = off := by
      simp only [List.length_take]; omega
    have h1 : (b.take off).length ≤ i := by omega
    rw [List.getD_append_right _ _ _ _ h1, htake]
    have h2 : v.length ≤ i - off := by omega
    rw [List.getD_append_right _ _ _ _ h2]
    have h3 : i - off - v.length < (b.drop (off + v.length)).length := by
      simp only [List.length_drop]; omega
    rw [List.getD_eq_getElem _ _ h3, List.getD_eq_getElem _ _ hlen]
    rw [List.getElem_drop]
    congr 1
    omega
  · rw [List.getD_eq_default _ _ (by omega : b.length ≤ i),
      List.getD_eq_default]
    rw [length_sdsWriteAt _ _ _ hle]
    omega

theorem parseCanonicalI64_roundtrip {b : Bytes} {v : Int}
    (h : parseCanonicalI64 b = some v) : ll2string v = b := by
  unfold parseCanonicalI64 at h
  split at h
  · cases b with
    | nil =>
      simp only at h
      split at h
      · rename_i hcond
        exact absurd hcond.2.2 (by decide)
      · exact absurd h (by simp)
    | cons c rest =>
      simp only at h
      split at h
      all_goals
        split at h
        · rename_i hcond
          have hv := Option.some.inj h
          subst hv
          exact hcond.2.2
        · exact absurd h (by simp)
  · exact absurd h (by simp)

theorem checkStringLength_true {size : Int} (h : size ≤ 512 * 1024 * 1024) :
    checkStringLength size = true := by
  simp only [checkStringLength, decide_eq_true_eq]
  exact h

theorem Heap.store_bufs_self (h : Heap) (bid : Nat) (b : Bytes) :
    (h.store bid b).bufs bid = b := by
  simp [Heap.store]

theorem setrangeCommand_some_red (h : Heap) (o : RObj) (off : Nat)
    (data : Bytes) (hne : data ≠ [])
    (hsz : (off : Int) + data.length ≤ 512 * 1024 * 1024) :
    setrangeCommand h (some o) (off : Int) data =
      ⟨(ensureRawExclusive h o).1.store (ensureRawExclusive h o).2.1
          (sdsWriteAt
            (sdsgrowzero ((ensureRawExclusive h o).1.bufs (ensureRawExclusive h o).2.1)
              (off + data.length)) off data),
        some (ensureRawExclusive h o).2.2, true,
        .ok ((sdsWriteAt
            (sdsgrowzero ((ensureRawExclusive h o).1.bufs (ensureRawExclusive h o).2.1)
              (off + data.length)) off data).length)⟩ := by
  have h0 : ¬ ((off : Int) < 0) := by simp
  have h1 : ¬ (data.length = 0) := by simpa using hne
  have h2 : checkStringLength ((off : Int) + (data.length : Nat)) = true :=
    checkStringLength_true hsz
  simp only [setrangeCommand, if_neg h0, if_neg h1, h2, not_true,
    Int.toNat_natCast, if_false]

theorem setrangeCommand_none_red (h : Heap) (off : Nat) (data : Bytes)
    (hne : data ≠ [])
    (hsz : (off : Int) + data.length ≤ 512 * 1024 * 1024) :
    setrangeCommand h none (off : Int) data =
      ⟨(h.alloc []).1.store h.next
          (sdsWriteAt (sdsgrowzero ((h.alloc []).1.bufs h.next) (off + data.length))
            off data),
        some ⟨.raw h.next, 1⟩, true,
        .ok ((sdsWriteAt (sdsgrowzero ((h.alloc []).1.bufs h.next) (off + data.length))
            off data).length)⟩ := by
  have h0 : ¬ ((off : Int) < 0) := by simp
  have h1 : ¬ (data.length = 0) := by simpa using hne
  have h2 : checkStringLength ((off : Int) + (data.length : Nat)) = true :=
    checkStringLength_true hsz
  simp only [setrangeCommand, if_neg h0, if_neg h1, h2, not_true,
    Int.toNat_natCast, if_false]
  rfl

theorem appendCommand_some_red (h : Heap) (o : RObj) (data : Bytes)
    (hsz : (stringObjectLen h o : Int) + data.length ≤ 512 * 1024 * 1024) :
    appendCommand h (some o) data =
      ⟨(ensureRawExclusive h o).1.store (ensureRawExclusive h o).2.1
          ((ensureRawExclusive h o).1.bufs (ensureRawExclusive h o).2.1 ++ data),
        some (ensureRawExclusive h o).2.2, true,
        .ok (((ensureRawExclusive h o).1.bufs (ensureRawExclusive h o).2.1 ++
            data).length)⟩ := by
  have h2 : checkStringLength ((stringObjectLen h o : Int) + (data.length : Nat)) =
      true := checkStringLength_true hsz
  simp only [appendCommand, h2, not_true, if_false]

theorem ensureRawExclusive_inplace (h : Heap) (o : RObj) (bid : Nat)
    (he : o.enc = .raw bid) (hr : o.refcount = 1) :
    ensureRawExclusive h o = (h, bid, o) := by
  simp [ensureRawExclusive, he, hr]

theorem ensureRawExclusive_copy (h : Heap) (o : RObj)
    (hc : ¬ (o.refcount = 1 ∧ o.enc.isRaw = true)) :
    ensureRawExclusive h o =
      ((h.alloc (objBytes h o)).1, h.next, ⟨.raw h.next, 1⟩) := by
  cases ho : o.enc with
  | raw bid =>
    have hr : ¬ o.refcount = 1 := by
      intro hr
      exact hc ⟨hr, by simp [ho, Enc.isRaw]⟩
    simp [ensureRawExclusive, ho, hr, Heap.alloc, objBytes]
  | int v =>
    simp [ensureRawExclusive, ho, Heap.alloc, objBytes]

theorem mutGuardPost_store (h : Heap) (o : RObj)
    (hwf : ∀ bid, o.enc = .raw bid → bid < h.next)
    (editOf : Bytes → Bytes) (m : Bool) (rep : Except Err Int) :
    mutGuardPost h o editOf
      ⟨(ensureRawExclusive h o).1.store (ensureRawExclusive h o).2.1
          (editOf ((ensureRawExclusive h o).1.bufs (ensureRawExclusive h o).2.1)),
        some (ensureRawExclusive h o).2.2, m, rep⟩ := by
  constructor
  · intro bid he hr
    rw [ensureRawExclusive_inplace h o bid he hr]
    refine ⟨rfl, rfl, ?_, ?_⟩
    · simp [Heap.store]
    · intro b hb
      simp [Heap.store, hb]
  · intro hc
    rw [ensureRawExclusive_copy h o hc]
    refine ⟨rfl, ?_, ?_, ?_, ?_⟩
    · simp [Heap.store, Heap.alloc]
    · intro b hb
      simp [Heap.store, Heap.alloc, hb]
    · cases ho : o.enc with
      | int v => simp [objBytes, ho]
      | raw bid =>
        have hlt : bid < h.next := hwf bid ho
        simp only [objBytes, ho, Heap.store, Heap.alloc]
        rw [if_neg (by omega), if_neg (by omega)]
    · intro bid he
      have := hwf bid he
      omega

theorem setrangeCommand_ok_ex (h : Heap) (existing : Option RObj) (off : Nat)
    (data : Bytes) (hne : data ≠ [])
    (hsz : (off : Int) + data.length ≤ 512 * 1024 * 1024) :
    ∃ (h1 : Heap) (bid : Nat) (o' : RObj), o'.enc = .raw bid ∧ h1.bufs bid = existingBytes h existing ∧
      setrangeCommand h existing (off : Int) data =
        ⟨h1.store bid
            (sdsWriteAt (sdsgrowzero (h1.bufs bid) (off + data.length)) off data),
          some o', true,
          .ok ((sdsWriteAt (sdsgrowzero (h1.bufs bid) (off + data.length))
            off data).length)⟩ := by
  cases existing with
  | none =>
    refine ⟨(h.alloc []).1, h.next, ⟨.raw h.next, 1⟩, rfl, ?_, ?_⟩
    · simp [Heap.alloc, existingBytes]
    · rw [setrangeCommand_none_red h off data hne hsz]
  | some o =>
    by_cases hc : o.refcount = 1 ∧ o.enc.isRaw = true
    · obtain ⟨hr, hraw⟩ := hc
      cases he : o.enc with
      | int v => simp [Enc.isRaw, he] at hraw
      | raw bid =>
        refine ⟨h, bid, o, he, ?_, ?_⟩
        · simp [existingBytes, objBytes, he]
        · rw [setrangeCommand_some_red h o off data hne hsz,
            ensureRawExclusive_inplace h o bid he hr]
    · refine ⟨(h.alloc (objBytes h o)).1, h.next, ⟨.raw h.next, 1⟩, rfl, ?_, ?_⟩
      · simp [Heap.alloc, existingBytes]
      · rw [setrangeCommand_some_red h o off data hne hsz,
          ensureRawExclusive_copy h o hc]

theorem appendCommand_ok_ex (h : Heap) (o : RObj) (data : Bytes)
    (hsz : (stringObjectLen h o : Int) + data.length ≤ 512 * 1024 * 1024) :
    ∃ (h1 : Heap) (bid : Nat) (o' : RObj), o'.enc = .raw bid ∧ h1.bufs bid = objBytes h o ∧
      appendCommand h (some o) data =
        ⟨h1.store bid (h1.bufs bid ++ data), some o', true,
          .ok ((h1.bufs bid ++ data).length)⟩ := by
  by_cases hc : o.refcount = 1 ∧ o.enc.isRaw = true
  · obtain ⟨hr, hraw⟩ := hc
    cases he : o.enc with
    | int v => simp [Enc.isRaw, he] at hraw
    | raw bid =>
      refine ⟨h, bid, o, he, ?_, ?_⟩
      · simp [objBytes, he]
      · rw [appendCommand_some_red h o data hsz,
          ensureRawExclusive_inplace h o bid he hr]
  · refine ⟨(h.alloc (objBytes h o)).1, h.next, ⟨.raw h.next, 1⟩, rfl, ?_, ?_⟩
    · simp [Heap.alloc]
    · rw [appendCommand_some_red h o data hsz,
        ensureRawExclusive_copy h o hc]

theorem write_at_spec_at_end (old data : Bytes)
    (hsz : (old.length : Int) + data.length ≤ 512 * 1024 * 1024) :
    write_at_spec (some old) old.length data =
      .ok (old.length + data.length, some (old ++ data)) := by
  by_cases hd : data = []
  · subst hd
    simp [write_at_spec]
  · have hlen : data.length ≠ 0 := by simpa using hd
    unfold write_at_spec
    rw [if_neg hd, if_neg (not_not_intro (by exact_mod_cast hsz))]
    simp only [Option.getD_some]
    have hbuf : sdsWriteAt (sdsgrowzero old (old.length + data.length))
        old.length data = old ++ data := by
      unfold sdsgrowzero
      rw [if_neg (by omega), Nat.add_sub_cancel_left]
      unfold sdsWriteAt
      rw [List.take_left, List.drop_eq_nil_of_le, List.append_nil]
      simp
    rw [hbuf]
    simp

theorem bigValue_length :
    (0 :: 0 :: List.replicate 536870911 0 : Bytes).length = 536870913 := by
  rw [List.length_cons, List.length_cons, List.length_replicate]

theorem bigValue_parse :
    parseCanonicalI64 (0 :: 0 :: List.replicate 536870911 0) = none := by
  have hc : ¬ ((0 :: 0 :: List.replicate 536870911 0 : Bytes).length ≤ 20) := by
    rw [bigValue_length]
    omega
  unfold parseCanonicalI64
  rw [if_neg hc]

theorem appendCommand_none_overlong (data : Bytes)
    (hlen : data.length = 536870913) (hp : parseCanonicalI64 data = none) :
    (appendCommand emptyHeap none data).reply = .ok 536870913 := by
  simp only [appendCommand, tryObjectEncodingH, hp]
  simp [stringObjectLen, objBytes, Heap.alloc, hlen]

theorem write_at_spec_overlong (data : Bytes)
    (hlen : data.length = 536870913) (hne : data ≠ []) :
    write_at_spec (some []) 0 data = .error .tooLarge := by
  have hc : ¬ (((0 : Nat) : Int) + (data.length : Int) ≤ 512 * 1024 * 1024) := by
    rw [hlen]
    decide
  unfold write_at_spec
  rw [if_neg hne, if_pos hc]

/-! ### Claim theorems -/

/-- C1: for SETRANGE's overwrite and APPEND's concatenation on an existing
value, if the reference count is exactly 1 and the value is raw Bytes, the
edit mutates that buffer in place with no allocation (zero-copy); otherwise a
fresh, exclusively owned raw copy of the canonical bytes is created, edited,
and installed via overwrite, while the original value's bytes and length are
left unchanged and a distinct buffer is used. -/
theorem C1_mutation_guard (h : Heap) (o : RObj) (off : Nat) (data : Bytes)
    (hdata : data ≠ [])
    (hwf : ∀ bid, o.enc = .raw bid → bid < h.next)
    (hsz1 : (off : Int) + data.length ≤ 512 * 1024 * 1024)
    (hsz2 : (stringObjectLen h o : Int) + data.length ≤ 512 * 1024 * 1024) :
    C1Concl h o off data := by
  unfold C1Concl
  constructor
  · rw [setrangeCommand_some_red h o off data hdata hsz1]
    exact mutGuardPost_store h o hwf _ _ _
  · rw [appendCommand_some_red h o data hsz2]
    exact mutGuardPost_store h o hwf _ _ _

/-- C1 witness: a shared (refcount 2) raw value "AB", edited with one byte. -/
theorem C1_mutation_guard_witness : C1Concl heapAB objShared 0 [67] :=
  C1_mutation_guard heapAB objShared 0 [67] (by decide)
    (by
      intro bid hb
      simp [objShared] at hb
      simp [heapAB]
      omega)
    (by decide) (by decide)

/-- C5: SETRANGE with a non-negative offset and non-empty data within the
size ceiling grows the target buffer to `max old (offset + len data)`,
zero-fills the gap between the old length and the offset, copies the data at
the offset (preserving all other old bytes), and reports the final length;
and on a missing key with offset 5 and data "Hi" the result has length 7 and
equals five NUL bytes followed by "Hi". -/
theorem C5_setrange_write (h : Heap) (existing : Option RObj) (off : Nat)
    (data : Bytes) (hne : data ≠ [])
    (hsz : (off : Int) + data.length ≤ 512 * 1024 * 1024) :
    C5Concl h existing off data ∧ setrangeHiExample := by
  constructor
  · unfold C5Concl
    obtain ⟨h1, bid, o', he, hpre, heq⟩ :=
      setrangeCommand_ok_ex h existing off data hne hsz
    rw [hpre] at heq
    set old := existingBytes h existing with hold
    set B := sdsWriteAt (sdsgrowzero old (off + data.length)) off data with hB
    have hle : off + data.length ≤ (sdsgrowzero old (off + data.length)).length := by
      rw [length_sdsgrowzero]
      omega
    have hBlen : B.length = max old.length (off + data.length) := by
      rw [hB, length_sdsWriteAt _ _ _ hle, length_sdsgrowzero]
    refine ⟨o', bid, ?_, he, ?_, ?_, ?_, ?_, ?_, ?_⟩
    · simp only [heq]
    · simp only [heq, Heap.store_bufs_self]
      exact hBlen
    · simp only [heq, Heap.store_bufs_self]
    · intro i hi
      simp only [heq, Heap.store_bufs_self, hB]
      rw [getD_sdsWriteAt_data _ _ _ _ hle hi]
    · intro i hge hlt
      simp only [heq, Heap.store_bufs_self, hB]
      rw [getD_sdsWriteAt_lt _ _ _ _ hle hlt, getD_sdsgrowzero_ge _ _ _ hge]
    · intro i hlt hoff
      simp only [heq, Heap.store_bufs_self, hB]
      rw [getD_sdsWriteAt_lt _ _ _ _ hle hoff, getD_sdsgrowzero_lt _ _ _ hlt]
    · intro i hge hlt
      simp only [heq, Heap.store_bufs_self, hB]
      rw [getD_sdsWriteAt_ge _ _ _ _ hle hge, getD_sdsgrowzero_lt _ _ _ hlt]
  · exact ⟨rfl, ⟨.raw 0, 1⟩, 0, rfl, rfl, rfl⟩

/-- C5 witness: the claim's own concrete scenario (missing key, offset 5,
data "Hi"). -/
theorem C5_setrange_write_witness :
    C5Concl emptyHeap none 5 [72, 105] ∧ setrangeHiExample :=
  C5_setrange_write emptyHeap none 5 [72, 105] (by decide) (by decide)

/-- C8: SETRANGE with empty data performs no mutation: a missing key replies
0 (and no key is created), a present key replies its current unchanged
length; heap and binding are untouched. -/
theorem C8_setrange_empty (h : Heap) (existing : Option RObj) (off : Int)
    (hoff : 0 ≤ off) :
    setrangeCommand h existing off [] =
      ⟨h, existing, false,
        .ok (match existing with
          | none => 0
          | some o => (stringObjectLen h o : Int))⟩ := by
  have h0 : ¬ (off < 0) := not_lt.mpr hoff
  cases existing with
  | none => simp [setrangeCommand, h0]
  | some o => simp [setrangeCommand, h0]

/-- C8 witness: empty data on a present two-byte value replies 2 and changes
nothing. -/
theorem C8_setrange_empty_witness :
    setrangeCommand heapAB (some objOwned) 0 [] =
      ⟨heapAB, some objOwned, false, .ok 2⟩ :=
  C8_setrange_empty heapAB (some objOwned) 0 (by decide)

/-- C9 (amended): provided the prospective final length (current length +
len data, with current length 0 for a missing key) is within the 512 MiB
ceiling, APPEND ends with the old bytes followed by the data and reports
`old length + data length`, agreeing with the spec's `write_at` at
offset = current length; on a missing key the directly installed
compact-encoded value equals extending from the empty value, with reported
length `len data`.  Beyond the ceiling on a missing key the equivalence
fails (see the counterexample). -/
theorem C9_append_refines (h : Heap) (existing : Option RObj) (data : Bytes)
    (hsz : ((existingBytes h existing).length : Int) + data.length ≤
      512 * 1024 * 1024) :
    C9Concl h existing data := by
  unfold C9Concl
  cases existing with
  | none =>
    simp only [appendCommand, tryObjectEncodingH]
    cases hp : parseCanonicalI64 data with
    | some v =>
      have hv := parseCanonicalI64_roundtrip hp
      refine ⟨⟨.int v, 1⟩, rfl, ?_, ?_, ?_⟩
      · simp [objBytes, existingBytes, hv]
      · simp [stringObjectLen, objBytes, existingBytes, hv]
      · have := write_at_spec_at_end [] data (by simpa [existingBytes] using hsz)
        simpa [existingBytes] using this
    | none =>
      refine ⟨⟨.raw h.next, 1⟩, rfl, ?_, ?_, ?_⟩
      · simp [objBytes, existingBytes, Heap.alloc]
      · simp [stringObjectLen, objBytes, existingBytes, Heap.alloc]
      · have := write_at_spec_at_end [] data (by simpa [existingBytes] using hsz)
        simpa [existingBytes] using this
  | some o =>
    have hsz' : (stringObjectLen h o : Int) + data.length ≤ 512 * 1024 * 1024 := by
      simpa [existingBytes, stringObjectLen] using hsz
    obtain ⟨h1, bid, o', he, hpre, heq⟩ := appendCommand_ok_ex h o data hsz'
    rw [heq]
    refine ⟨o', rfl, ?_, ?_, ?_⟩
    · simp only [objBytes, he, Heap.store, if_pos rfl]
      rw [hpre]
      simp [existingBytes, objBytes]
    · simp only [existingBytes]
      rw [hpre]
      simp [existingBytes]
    · exact write_at_spec_at_end (objBytes h o) data
        (by simpa [existingBytes, stringObjectLen] using hsz)

/-- C9 witness: APPEND of "!" to an int-encoded value 7. -/
theorem C9_append_refines_witness : C9Concl emptyHeap (some objInt7) [33] :=
  C9_append_refines emptyHeap (some objInt7) [33] (by decide)

/-- C9 counterexample: on a missing key holding no value, appending a value
one byte beyond the 512 MiB ceiling installs it and reports its full length,
while the spec's `write_at` extending from the empty value rejects with
TooLarge — so the claimed end-state equivalence fails there. -/
theorem C9_append_counterexample :
    (appendCommand emptyHeap none (0 :: 0 :: List.replicate 536870911 0)).reply =
      .ok 536870913 ∧
    write_at_spec (some []) 0 (0 :: 0 :: List.replicate 536870911 0) =
      .error .tooLarge :=
  ⟨appendCommand_none_overlong _ bigValue_length bigValue_parse,
    write_at_spec_overlong _ bigValue_length (List.cons_ne_nil _ _)⟩

/-- C10: SETRANGE with empty data on a missing key leaves the store
completely unchanged — no key created, no modification signal, reply 0 — for
every non-negative offset, including offsets whose size alone exceeds the
512 MiB ceiling, because the empty-data early return precedes the size
check. -/
theorem C10_setrange_missing_empty (h : Heap) (off : Int) (hoff : 0 ≤ off) :
    setrangeCommand h none off [] = ⟨h, none, false, .ok 0⟩ := by
  have h0 : ¬ (off < 0) := not_lt.mpr hoff
  simp [setrangeCommand, h0]

/-- C10 witness: an offset beyond the 512 MiB ceiling still replies 0 with no
error and no state change. -/
theorem C10_setrange_missing_empty_witness :
    setrangeCommand emptyHeap none (512 * 1024 * 1024 + 1) [] =
      ⟨emptyHeap, none, false, .ok 0⟩ :=
  C10_setrange_missing_empty emptyHeap (512 * 1024 * 1024 + 1) (by decide)

/-- C3: for a current value decoding as a signed 64-bit integer (a missing
key reads as 0) and a 64-bit delta, INCR/DECR fails with Overflow leaving
heap and binding unchanged exactly when (delta < 0 and current < 0 and
delta < MIN_I64 - current) or (delta > 0 and current > 0 and
delta > MAX_I64 - current); otherwise it stores and reports exactly
current + delta as a fresh compact-encoded value, never reusing the old
buffer (the heap is untouched). -/
theorem C3_incr_overflow (h : Heap) (existing : Option RObj)
    (delta current : Int)
    (hdec : getLongLongFromObject h existing = some current)
    (hcur : MIN_I64 ≤ current ∧ current ≤ MAX_I64)
    (hdel : MIN_I64 ≤ delta ∧ delta ≤ MAX_I64) :
    C3Concl h existing delta current := by
  have hred : incrDecrCommand h existing delta =
      if (delta < 0 ∧ current < 0 ∧ delta < MIN_I64 - current) ∨
          (delta > 0 ∧ current > 0 ∧ delta > MAX_I64 - current) then
        ⟨h, existing, false, .error .overflow⟩
      else ⟨h, some ⟨.int (current + delta), 1⟩, true, .ok (current + delta)⟩ := by
    simp only [incrDecrCommand, hdec]
  unfold C3Concl
  rw [hred]
  by_cases hc : (delta < 0 ∧ current < 0 ∧ delta < MIN_I64 - current) ∨
      (delta > 0 ∧ current > 0 ∧ delta > MAX_I64 - current)
  · rw [if_pos hc]
    exact ⟨⟨fun _ => hc, fun _ => rfl⟩, fun hn => absurd hc hn⟩
  · rw [if_neg hc]
    refine ⟨⟨fun heq => ?_, fun hcc => absurd hcc hc⟩, fun _ => rfl⟩
    have hrep := congrArg CmdOut.reply heq
    simp at hrep

/-- C3 witness: current 7 (int-encoded), delta 1 — no overflow, result 8. -/
theorem C3_incr_overflow_witness : C3Concl emptyHeap (some objInt7) 1 7 :=
  C3_incr_overflow emptyHeap (some objInt7) 1 7 rfl (by decide) (by decide)

/-- C4: the claim's clamp is the spec's intent, but the code deviates: the
`(unsigned)` cast at t_string.c:314 truncates `end` to 32 bits in the clamp
test, so on "Hello World" (length 11) with start 0 and end 2^32 the clamp is
skipped — the code requests a read of 2^32 + 1 bytes from the 11-byte buffer
(out of bounds, violating the source comment's own precondition
`end < strlen` at t_string.c:316-317) — whereas the spec's `read_range`
clamps end' to 10 and returns the whole string.  On the claim's in-range
examples the code behaves as specified: (-5,-1) requests bytes 6..10
("World"), (0,-1) the whole string, (20,25) the empty reply. -/
theorem C4_getrange_unsigned_cast_bug :
    getrangeRequest [72, 101, 108, 108, 111, 32, 87, 111, 114, 108, 100]
        0 4294967296 = some (0, 4294967297) ∧
    ([72, 101, 108, 108, 111, 32, 87, 111, 114, 108, 100] : Bytes).length <
      4294967297 ∧
    read_range_spec [72, 101, 108, 108, 111, 32, 87, 111, 114, 108, 100]
        0 4294967296 =
      [72, 101, 108, 108, 111, 32, 87, 111, 114, 108, 100] ∧
    getrangeRequest [72, 101, 108, 108, 111, 32, 87, 111, 114, 108, 100]
        (-5) (-1) = some (6, 5) ∧
    getrangeRequest [72, 101, 108, 108, 111, 32, 87, 111, 114, 108, 100]
        0 (-1) = some (0, 11) ∧
    getrangeRequest [72, 101, 108, 108, 111, 32, 87, 111, 114, 108, 100]
        20 25 = none := by
  refine ⟨by decide, by decide, by decide, by decide, by decide, by decide⟩

theorem incrbyfloatCommand_nofloat1 {LD : Type} (ldAdd : LD → LD → LD)
    (ldIsBad : LD → Bool) (ldFmt : LD → Bytes) (ldParse : Bytes → Option LD)
    (ldZero : LD) (h : Heap) (key : Bytes) (existing : Option RObj)
    (incrArg : Bytes)
    (hcur : getLongDoubleFromObject ldParse ldZero h existing = none) :
    incrbyfloatCommand ldAdd ldIsBad ldFmt ldParse ldZero h key existing
      incrArg =
      ⟨h, existing, false, .error .notAFloat, [incrbyfloatVerb, key, incrArg]⟩ := by
  simp only [incrbyfloatCommand, hcur]

theorem incrbyfloatCommand_nofloat2 {LD : Type} (ldAdd : LD → LD → LD)
    (ldIsBad : LD → Bool) (ldFmt : LD → Bytes) (ldParse : Bytes → Option LD)
    (ldZero : LD) (h : Heap) (key : Bytes) (existing : Option RObj)
    (incrArg : Bytes) (value : LD)
    (hcur : getLongDoubleFromObject ldParse ldZero h existing = some value)
    (hp : ldParse incrArg = none) :
    incrbyfloatCommand ldAdd ldIsBad ldFmt ldParse ldZero h key existing
      incrArg =
      ⟨h, existing, false, .error .notAFloat, [incrbyfloatVerb, key, incrArg]⟩ := by
  simp only [incrbyfloatCommand, hcur, hp]

theorem incrbyfloatCommand_bad_red {LD : Type} (ldAdd : LD → LD → LD)
    (ldIsBad : LD → Bool) (ldFmt : LD → Bytes) (ldParse : Bytes → Option LD)
    (ldZero : LD) (h : Heap) (key : Bytes) (existing : Option RObj)
    (incrArg : Bytes) (value incr : LD)
    (hcur : getLongDoubleFromObject ldParse ldZero h existing = some value)
    (hp : ldParse incrArg = some incr)
    (hbad : ldIsBad (ldAdd value incr) = true) :
    incrbyfloatCommand ldAdd ldIsBad ldFmt ldParse ldZero h key existing
      incrArg =
      ⟨h, existing, false, .error .floatOverflow,
        [incrbyfloatVerb, key, incrArg]⟩ := by
  simp only [incrbyfloatCommand, hcur, hp, hbad, if_true]

theorem incrbyfloatCommand_ok_red {LD : Type} (ldAdd : LD → LD → LD)
    (ldIsBad : LD → Bool) (ldFmt : LD → Bytes) (ldParse : Bytes → Option LD)
    (ldZero : LD) (h : Heap) (key : Bytes) (existing : Option RObj)
    (incrArg : Bytes) (value incr : LD)
    (hcur : getLongDoubleFromObject ldParse ldZero h existing = some value)
    (hp : ldParse incrArg = some incr)
    (hgood : ldIsBad (ldAdd value incr) = false) :
    incrbyfloatCommand ldAdd ldIsBad ldFmt ldParse ldZero h key existing
      incrArg =
      ⟨(h.alloc (ldFmt (ldAdd value incr))).1, some ⟨.raw h.next, 1⟩, true,
        .ok (ldFmt (ldAdd value incr)),
        [setVerb, key, ldFmt (ldAdd value incr)]⟩ := by
  simp only [incrbyfloatCommand, hcur, hp, hgood, Bool.false_eq_true, if_false]
  rfl

/-- C6: every successful INCRBYFLOAT rewrites the propagated command to a SET
of the key to the exact stored literal text (the formatted result), never a
re-application of the float delta. -/
theorem C6_incrbyfloat_propagation {LD : Type} (ldAdd : LD → LD → LD)
    (ldIsBad : LD → Bool) (ldFmt : LD → Bytes) (ldParse : Bytes → Option LD)
    (ldZero : LD) (h : Heap) (key : Bytes) (existing : Option RObj)
    (incrArg : Bytes) (r : Bytes)
    (hok : (incrbyfloatCommand ldAdd ldIsBad ldFmt ldParse ldZero h key existing
        incrArg).reply = .ok r) :
    C6Concl ldAdd ldIsBad ldFmt ldParse ldZero h key existing incrArg r := by
  unfold C6Concl
  cases hcur : getLongDoubleFromObject ldParse ldZero h existing with
  | none =>
    rw [incrbyfloatCommand_nofloat1 ldAdd ldIsBad ldFmt ldParse ldZero h key
      existing incrArg hcur] at hok
    simp at hok
  | some value =>
    cases hp : ldParse incrArg with
    | none =>
      rw [incrbyfloatCommand_nofloat2 ldAdd ldIsBad ldFmt ldParse ldZero h key
        existing incrArg value hcur hp] at hok
      simp at hok
    | some incr =>
      cases hbad : ldIsBad (ldAdd value incr) with
      | true =>
        rw [incrbyfloatCommand_bad_red ldAdd ldIsBad ldFmt ldParse ldZero h key
          existing incrArg value incr hcur hp hbad] at hok
        simp at hok
      | false =>
        rw [incrbyfloatCommand_ok_red ldAdd ldIsBad ldFmt ldParse ldZero h key
          existing incrArg value incr hcur hp hbad] at hok ⊢
        have hr : ldFmt (ldAdd value incr) = r := by
          simpa using hok
        subst hr
        refine ⟨rfl, ⟨⟨.raw h.next, 1⟩, rfl, ?_⟩, ?_⟩
        · simp [objBytes, Heap.alloc]
        · simp [setVerb, incrbyfloatVerb]

/-- C6 witness: over exact integer arithmetic as the long-double stand-in,
INCRBYFLOAT of 5 on a missing key propagates SET key "5". -/
theorem C6_incrbyfloat_propagation_witness :
    @C6Concl Int (fun a b => a + b) (fun _ => false) ll2string parseCanonicalI64
      0 emptyHeap [107] none [53] [53] :=
  @C6_incrbyfloat_propagation Int (fun a b => a + b) (fun _ => false) ll2string
    parseCanonicalI64 0 emptyHeap [107] none [53] [53] rfl

end TString
